import Mathlib

/-!
Verification of the breezy-desktop XFCE4 renderer against its design
specification.  The definitions below are shallow embeddings of the C
sources: `imu_reader.c` (shared-memory pose/config channel),
`breezy_xfce4_renderer.c` (frame handoff ring, DMA-BUF publish step,
thread lifecycle, shader uniform computation) and `breezy_math.c`
(FOV conversions, quaternion SLERP, look-ahead).  Machine floats are
modelled by real numbers; bytes copied verbatim out of shared memory are
modelled as raw byte lists.
-/

set_option maxHeartbeats 1000000

/-! ## Shared-memory layout (imu_reader.c)

A mapped shared-memory segment is viewed as its byte sequence, indexed by
offset.  Byte values are naturals (the producer writes values below 256;
none of the statements below needs that bound). -/

def SharedBuf : Type := Nat → Nat

def OFFSET_VERSION : Nat := 0

def OFFSET_ENABLED : Nat := 1

def OFFSET_LOOK_AHEAD_CFG : Nat := 2

def OFFSET_DISPLAY_RES : Nat := 18

def OFFSET_DISPLAY_FOV : Nat := 26

def OFFSET_LENS_DISTANCE_RATIO : Nat := 30

def OFFSET_SBS_ENABLED : Nat := 34

def OFFSET_CUSTOM_BANNER_ENABLED : Nat := 35

def OFFSET_SMOOTH_FOLLOW_ENABLED : Nat := 36

def OFFSET_SMOOTH_FOLLOW_ORIGIN_DATA : Nat := 37

def OFFSET_POSE_POSITION : Nat := 101

def OFFSET_EPOCH_MS : Nat := 113

def OFFSET_POSE_ORIENTATION : Nat := 121

def OFFSET_IMU_PARITY_BYTE : Nat := 185

/-- The `len` bytes starting at offset `off` (a `memcpy` source range). -/
def bytesAt (data : SharedBuf) (off len : Nat) : List Nat :=
  (List.range' off len).map data

/-- `calculate_parity` from imu_reader.c: XOR of all bytes in
`[OFFSET_EPOCH_MS, OFFSET_IMU_PARITY_BYTE)`. -/
def calculate_parity (data : SharedBuf) : Nat :=
  (List.range' OFFSET_EPOCH_MS (OFFSET_IMU_PARITY_BYTE - OFFSET_EPOCH_MS)).foldl
    (fun p i => p ^^^ data i) 0

/-- Little-endian 32-bit word at offset `off` (x86 `memcpy` into a `uint32_t`). -/
def le32At (data : SharedBuf) (off : Nat) : Nat :=
  data off + 2 ^ 8 * data (off + 1) + 2 ^ 16 * data (off + 2) + 2 ^ 24 * data (off + 3)

/-- `IMUData` from breezy_x11_renderer.h.  The float arrays are kept as the
raw bytes `memcpy`d out of the buffer (bit reinterpretation to floats is a
bijection and irrelevant to every claim below). -/
structure IMUData where
  pose_orientation : List Nat
  position : List Nat
  timestamp_ms : Nat
  valid : Bool
deriving Repr, DecidableEq

/-- `IMUData result = {0}` with `result.valid = false`. -/
def IMUData.zeroed : IMUData :=
  { pose_orientation := List.replicate 64 0
    position := List.replicate 12 0
    timestamp_ms := 0
    valid := false }

/-- `read_latest_imu` from imu_reader.c, for a reader whose segment is
mapped (`shm_ptr` non-null): given the cached `reader->latest` and the
mapped bytes, returns the result and the new value of `reader->latest`.
The enabled-flag check and parity check are performed in source order;
on rejection the zeroed invalid sample is returned and the cache is left
untouched; on acceptance position, epoch and orientation are copied out
and the cache is updated to the accepted sample. -/
def read_latest_imu (latest : IMUData) (data : SharedBuf) : IMUData × IMUData :=
  if data OFFSET_ENABLED = 0 then (IMUData.zeroed, latest)
  else if calculate_parity data ≠ data OFFSET_IMU_PARITY_BYTE then (IMUData.zeroed, latest)
  else
    let result : IMUData :=
      { position := bytesAt data OFFSET_POSE_POSITION 12
        timestamp_ms := 2 ^ 32 * le32At data (OFFSET_EPOCH_MS + 4) + le32At data OFFSET_EPOCH_MS
        pose_orientation := bytesAt data OFFSET_POSE_ORIENTATION 64
        valid := true }
    (result, result)

/-- `DeviceConfig` from breezy_x11_renderer.h, float fields kept as raw bytes. -/
structure DeviceConfig where
  look_ahead_cfg : List Nat
  display_resolution : List Nat
  display_fov : List Nat
  lens_distance_ratio : List Nat
  sbs_enabled : Bool
  custom_banner_enabled : Bool
  smooth_follow_enabled : Bool
  smooth_follow_origin : List Nat
  valid : Bool
deriving Repr, DecidableEq

/-- `DeviceConfig config = {0}` with `config.valid = false`. -/
def DeviceConfig.zeroed : DeviceConfig :=
  { look_ahead_cfg := List.replicate 16 0
    display_resolution := List.replicate 8 0
    display_fov := List.replicate 4 0
    lens_distance_ratio := List.replicate 4 0
    sbs_enabled := false
    custom_banner_enabled := false
    smooth_follow_enabled := false
    smooth_follow_origin := List.replicate 64 0
    valid := false }

/-- `read_device_config` from imu_reader.c (mapped segment).  Same
enabled/parity gate as `read_latest_imu`; it does not touch
`reader->latest`. -/
def read_device_config (data : SharedBuf) : DeviceConfig :=
  if data OFFSET_ENABLED = 0 then DeviceConfig.zeroed
  else if calculate_parity data ≠ data OFFSET_IMU_PARITY_BYTE then DeviceConfig.zeroed
  else
    { look_ahead_cfg := bytesAt data OFFSET_LOOK_AHEAD_CFG 16
      display_resolution := bytesAt data OFFSET_DISPLAY_RES 8
      display_fov := bytesAt data OFFSET_DISPLAY_FOV 4
      lens_distance_ratio := bytesAt data OFFSET_LENS_DISTANCE_RATIO 4
      sbs_enabled := data OFFSET_SBS_ENABLED != 0
      custom_banner_enabled := data OFFSET_CUSTOM_BANNER_ENABLED != 0
      smooth_follow_enabled := data OFFSET_SMOOTH_FOLLOW_ENABLED != 0
      smooth_follow_origin := bytesAt data OFFSET_SMOOTH_FOLLOW_ORIGIN_DATA 64
      valid := true }

/-! ### XOR-fold helper lemmas -/

/-- XOR of a list of naturals. -/
def xorList (l : List Nat) : Nat := l.foldr (fun a b => a ^^^ b) 0

theorem foldl_xor_eq_xorList (l : List Nat) (d : Nat → Nat) (a : Nat) :
    l.foldl (fun p i => p ^^^ d i) a = a ^^^ xorList (l.map d) := by
  induction l generalizing a with
  | nil => simp [xorList]
  | cons i l ih =>
    simp only [List.foldl_cons, List.map_cons, xorList, List.foldr_cons]
    rw [ih]
    rw [Nat.xor_assoc]
    rfl

theorem xor_cancel_left_zero (a c : Nat) (h : a ^^^ c = a) : c = 0 := by
  have h1 : a ^^^ (a ^^^ c) = a ^^^ a := by rw [h]
  rwa [← Nat.xor_assoc, Nat.xor_self, Nat.zero_xor] at h1

theorem xorList_map_update (l : List Nat) (hl : l.Nodup) (d : Nat → Nat) (j v : Nat)
    (hj : j ∈ l) :
    xorList (l.map (Function.update d j v)) = xorList (l.map d) ^^^ (d j ^^^ v) := by
  induction l with
  | nil => cases hj
  | cons i l ih =>
    rcases List.nodup_cons.mp hl with ⟨hi, hl'⟩
    by_cases hij : j = i
    · subst hij
      have hmap : l.map (Function.update d j v) = l.map d := by
        apply List.map_congr_left
        intro x hx
        have : x ≠ j := fun h => hi (h ▸ hx)
        exact Function.update_noteq this v d
      simp only [List.map_cons, xorList, List.foldr_cons, hmap, Function.update_same]
      have hc : ∀ a b c : Nat, a ^^^ b ^^^ (a ^^^ c) = c ^^^ b := by
        intro a b c
        rw [Nat.xor_comm a b, Nat.xor_assoc, ← Nat.xor_assoc a a c, Nat.xor_self,
          Nat.zero_xor, Nat.xor_comm b c]
      exact (hc (d j) (xorList (l.map d)) v).symm
    · have hjl : j ∈ l := by
        rcases List.mem_cons.mp hj with h | h
        · exact absurd h hij
        · exact h
      simp only [List.map_cons, xorList, List.foldr_cons]
      have hupd : Function.update d j v i = d i := Function.update_noteq (fun h => hij h.symm) v d
      rw [hupd]
      have := ih hl' hjl
      simp only [xorList] at this
      rw [this, Nat.xor_assoc]

theorem calculate_parity_eq_xorList (d : SharedBuf) :
    calculate_parity d =
      xorList ((List.range' OFFSET_EPOCH_MS (OFFSET_IMU_PARITY_BYTE - OFFSET_EPOCH_MS)).map d) := by
  unfold calculate_parity
  rw [foldl_xor_eq_xorList, Nat.zero_xor]

/-- Flipping one byte inside the checksummed range changes the parity. -/
theorem calculate_parity_update_inside (d : SharedBuf) (j v : Nat)
    (h1 : OFFSET_EPOCH_MS ≤ j) (h2 : j < OFFSET_IMU_PARITY_BYTE) (hv : v ≠ d j) :
    calculate_parity (Function.update d j v) ≠ calculate_parity d := by
  have hjmem : j ∈ List.range' OFFSET_EPOCH_MS (OFFSET_IMU_PARITY_BYTE - OFFSET_EPOCH_MS) := by
    rw [List.mem_range'_1]
    refine ⟨h1, ?_⟩
    simp only [OFFSET_EPOCH_MS, OFFSET_IMU_PARITY_BYTE] at *
    omega
  have hnd : (List.range' OFFSET_EPOCH_MS (OFFSET_IMU_PARITY_BYTE - OFFSET_EPOCH_MS)).Nodup :=
    List.nodup_range' _ _
  intro heq
  rw [calculate_parity_eq_xorList, calculate_parity_eq_xorList,
    xorList_map_update _ hnd d j v hjmem] at heq
  have h0 : d j ^^^ v = 0 := xor_cancel_left_zero _ _ heq
  apply hv
  have : d j ^^^ (d j ^^^ v) = d j ^^^ 0 := by rw [h0]
  rwa [← Nat.xor_assoc, Nat.xor_self, Nat.zero_xor, Nat.xor_zero] at this

/-- The parity depends only on the bytes in the checksummed range. -/
theorem calculate_parity_congr (d1 d2 : SharedBuf)
    (h : ∀ i, OFFSET_EPOCH_MS ≤ i → i < OFFSET_IMU_PARITY_BYTE → d1 i = d2 i) :
    calculate_parity d1 = calculate_parity d2 := by
  rw [calculate_parity_eq_xorList, calculate_parity_eq_xorList]
  congr 1
  apply List.map_congr_left
  intro x hx
  rw [List.mem_range'_1] at hx
  exact h x hx.1 (by simpa [OFFSET_EPOCH_MS, OFFSET_IMU_PARITY_BYTE] using hx.2)

/-- Validity characterisation of `read_latest_imu` (helper shared by the
claims). -/
theorem read_latest_imu_valid_iff (latest : IMUData) (data : SharedBuf) :
    (read_latest_imu latest data).1.valid = true ↔
      (data OFFSET_ENABLED ≠ 0 ∧ calculate_parity data = data OFFSET_IMU_PARITY_BYTE) := by
  unfold read_latest_imu
  split_ifs with h1 h2
  · simp [IMUData.zeroed, h1]
  · simp [IMUData.zeroed, h1, h2]
  · simp only [not_not] at h2
    simp [h1, h2]

/-- Validity characterisation of `read_device_config` (helper). -/
theorem read_device_config_valid_iff (data : SharedBuf) :
    (read_device_config data).valid = true ↔
      (data OFFSET_ENABLED ≠ 0 ∧ calculate_parity data = data OFFSET_IMU_PARITY_BYTE) := by
  unfold read_device_config
  split_ifs with h1 h2
  · simp [DeviceConfig.zeroed, h1]
  · simp [DeviceConfig.zeroed, h1, h2]
  · simp only [not_not] at h2
    simp [h1, h2]

/-- A test buffer: enabled flag set, every other byte zero (parity of the
all-zero checksummed range is 0, matching the zero trailer byte). -/
def imuTestBuf : SharedBuf := fun i => if i = OFFSET_ENABLED then 1 else 0

/-- C1: `read_latest_imu` and `read_device_config` accept exactly when the
enabled byte (offset 1) is non-zero and the XOR of the bytes in
`[113, 185)` equals the trailer parity byte at offset 185; flipping any
single byte inside the checksummed range turns an accepted read into a
rejected one. -/
theorem imu_parity_gate (latest : IMUData) (data : SharedBuf) (j v : Nat)
    (hj1 : OFFSET_EPOCH_MS ≤ j) (hj2 : j < OFFSET_IMU_PARITY_BYTE) (hv : v ≠ data j) :
    ((read_latest_imu latest data).1.valid = true ↔
      (data OFFSET_ENABLED ≠ 0 ∧ calculate_parity data = data OFFSET_IMU_PARITY_BYTE))
    ∧ ((read_device_config data).valid = true ↔
      (data OFFSET_ENABLED ≠ 0 ∧ calculate_parity data = data OFFSET_IMU_PARITY_BYTE))
    ∧ ((read_latest_imu latest data).1.valid = true →
      (read_latest_imu latest (Function.update data j v)).1.valid = false) := by
  refine ⟨read_latest_imu_valid_iff latest data, read_device_config_valid_iff data, ?_⟩
  intro hacc
  rcases (read_latest_imu_valid_iff latest data).mp hacc with ⟨hen, hpar⟩
  have h113 : (113 : Nat) ≤ j := hj1
  have h185 : j < 185 := hj2
  have henu : Function.update data j v OFFSET_ENABLED ≠ 0 := by
    rw [Function.update_noteq (by simp only [OFFSET_ENABLED]; omega) v data]
    exact hen
  have htrail : Function.update data j v OFFSET_IMU_PARITY_BYTE = data OFFSET_IMU_PARITY_BYTE := by
    rw [Function.update_noteq (by simp only [OFFSET_IMU_PARITY_BYTE]; omega) v data]
  have hne : calculate_parity (Function.update data j v) ≠
      Function.update data j v OFFSET_IMU_PARITY_BYTE := by
    rw [htrail, ← hpar]
    exact calculate_parity_update_inside data j v hj1 hj2 hv
  have : ¬ (read_latest_imu latest (Function.update data j v)).1.valid = true := by
    rw [read_latest_imu_valid_iff]
    rintro ⟨-, hp⟩
    exact hne hp
  exact Bool.not_eq_true _ |>.mp this

/-- Witness for C1: the concrete enabled buffer with matching parity is
accepted, and flipping byte 113 (inside the checksummed range) makes the
read come back invalid. -/
theorem imu_parity_gate_witness :
    (read_latest_imu IMUData.zeroed imuTestBuf).1.valid = true
    ∧ (read_latest_imu IMUData.zeroed (Function.update imuTestBuf 113 1)).1.valid = false := by
  have h := imu_parity_gate IMUData.zeroed imuTestBuf 113 1 (by decide) (by decide) (by decide)
  have hacc : (read_latest_imu IMUData.zeroed imuTestBuf).1.valid = true :=
    h.1.mpr ⟨by decide, by decide⟩
  exact ⟨hacc, h.2.2 hacc⟩

/-- C2: when `read_latest_imu` rejects (enabled byte clear or parity
mismatch) the cached `reader->latest` is unchanged and the returned sample
is the zeroed invalid one — no field of it comes from the rejected
buffer. -/
theorem imu_reject_keeps_last_good (latest : IMUData) (data : SharedBuf)
    (h : data OFFSET_ENABLED = 0 ∨ calculate_parity data ≠ data OFFSET_IMU_PARITY_BYTE) :
    (read_latest_imu latest data).2 = latest
    ∧ (read_latest_imu latest data).1 = IMUData.zeroed := by
  unfold read_latest_imu
  rcases h with h | h
  · simp [h]
  · by_cases h1 : data OFFSET_ENABLED = 0
    · simp [h1]
    · simp [h1, h]

/-- A sample cached reader state used by the C2 witness. -/
def cachedSample : IMUData :=
  { pose_orientation := List.replicate 64 3
    position := List.replicate 12 5
    timestamp_ms := 42
    valid := true }

/-- Witness for C2 at the all-zero (disabled) buffer: the cached sample
survives and the returned sample is the zeroed invalid one. -/
theorem imu_reject_keeps_last_good_witness :
    (read_latest_imu cachedSample (fun _ => 0)).2 = cachedSample
    ∧ (read_latest_imu cachedSample (fun _ => 0)).1 = IMUData.zeroed :=
  imu_reject_keeps_last_good cachedSample (fun _ => 0) (Or.inl (by decide))

/-- C10: the parity depends only on the bytes at offsets 113–184: buffers
agreeing there get equal parity; updating a pose-position byte (offsets
101–112) never changes the parity; and such an update leaves an accepted
read accepted, now delivering the modified position bytes — the tear check
cannot detect a torn pose-position field. -/
theorem parity_blind_to_pose_position :
    (∀ d1 d2 : SharedBuf, (∀ i, OFFSET_EPOCH_MS ≤ i → i < OFFSET_IMU_PARITY_BYTE → d1 i = d2 i) →
      calculate_parity d1 = calculate_parity d2)
    ∧ (∀ (d : SharedBuf) (j v : Nat), OFFSET_POSE_POSITION ≤ j → j < OFFSET_EPOCH_MS →
      calculate_parity (Function.update d j v) = calculate_parity d)
    ∧ (∀ (latest : IMUData) (d : SharedBuf) (j v : Nat),
      OFFSET_POSE_POSITION ≤ j → j < OFFSET_EPOCH_MS →
      (read_latest_imu latest d).1.valid = true →
      ((read_latest_imu latest (Function.update d j v)).1.valid = true ∧
        (read_latest_imu latest (Function.update d j v)).1.position =
          bytesAt (Function.update d j v) OFFSET_POSE_POSITION 12)) := by
  have hupd : ∀ (d : SharedBuf) (j v : Nat), OFFSET_POSE_POSITION ≤ j → j < OFFSET_EPOCH_MS →
      calculate_parity (Function.update d j v) = calculate_parity d := by
    intro d j v hj1 hj2
    apply calculate_parity_congr
    intro i hi1 hi2
    have : i ≠ j := by
      simp only [OFFSET_POSE_POSITION, OFFSET_EPOCH_MS] at *
      omega
    rw [Function.update_noteq this v d]
  refine ⟨fun d1 d2 h => calculate_parity_congr d1 d2 h, hupd, ?_⟩
  intro latest d j v hj1 hj2 hacc
  rcases (read_latest_imu_valid_iff latest d).mp hacc with ⟨hen, hpar⟩
  have hjne1 : OFFSET_ENABLED ≠ j := by
    simp only [OFFSET_POSE_POSITION, OFFSET_EPOCH_MS, OFFSET_ENABLED] at *
    omega
  have hjne185 : OFFSET_IMU_PARITY_BYTE ≠ j := by
    simp only [OFFSET_POSE_POSITION, OFFSET_EPOCH_MS, OFFSET_IMU_PARITY_BYTE] at *
    omega
  have hvld : (read_latest_imu latest (Function.update d j v)).1.valid = true := by
    rw [read_latest_imu_valid_iff]
    constructor
    · rw [Function.update_noteq hjne1 v d]
      exact hen
    · rw [hupd d j v hj1 hj2, Function.update_noteq hjne185 v d]
      exact hpar
  refine ⟨hvld, ?_⟩
  unfold read_latest_imu
  split_ifs with h1 h2
  · rw [read_latest_imu_valid_iff] at hvld
    exact absurd h1 (by simpa [read_latest_imu, h1] using hvld.1)
  · exfalso
    apply h2
    rw [hupd d j v hj1 hj2, Function.update_noteq hjne185 v d]
    exact hpar
  · rfl

/-- Witness for C10: updating pose-position byte 101 of the accepted test
buffer keeps the parity and the read stays valid, returning the updated
position bytes. -/
theorem parity_blind_to_pose_position_witness :
    calculate_parity (Function.update imuTestBuf 101 7) = calculate_parity imuTestBuf
    ∧ (read_latest_imu IMUData.zeroed (Function.update imuTestBuf 101 7)).1.valid = true := by
  have h := parity_blind_to_pose_position
  have hacc : (read_latest_imu IMUData.zeroed imuTestBuf).1.valid = true := by decide
  exact ⟨h.2.1 imuTestBuf 101 7 (by decide) (by decide),
    (h.2.2 IMUData.zeroed imuTestBuf 101 7 (by decide) (by decide) hacc).1⟩

/-! ## Frame handoff ring (breezy_xfce4_renderer.c)

`FrameBuffer` with its lock-free single-writer ring: `write_frame`
advances the write index, stamps the slot and bumps the frame counter;
`read_latest_frame` always reads the slot at the current write index.
The pixel pointers are `NULL` markers in the DMA-BUF design and carry no
data, so only the indices and timestamps are modelled; the
`clock_gettime` timestamp taken inside `write_frame` is passed in as the
`now` argument. -/

def RING_BUFFER_SIZE : Nat := 3

structure FrameBuffer where
  width : Nat
  height : Nat
  stride : Nat
  write_index : Nat
  read_index : Nat
  timestamps : Nat → Nat
  frame_count : Nat

/-- `write_frame`: returns the C function's boolean result and the updated
buffer state. -/
def write_frame (fb : FrameBuffer) (now : Nat) (width height : Nat) : Bool × FrameBuffer :=
  if width ≠ fb.width ∨ height ≠ fb.height then (false, fb)
  else
    let next_write := (fb.write_index + 1) % RING_BUFFER_SIZE
    (true,
      { fb with
        timestamps := Function.update fb.timestamps next_write now
        write_index := next_write
        frame_count := fb.frame_count + 1 })

/-- `read_latest_frame`: returns the C function's boolean result and the
timestamp it stores through the out-parameter (the slot at the current
write index). -/
def read_latest_frame (fb : FrameBuffer) : Bool × Nat :=
  (true, fb.timestamps fb.write_index)

/-- C3: publishing frames N (stamp `tsN`) and N+1 (stamp `tsN1`) before any
consume makes the consumer observe exactly the slot written by the second
publish: both writes succeed, the read returns `tsN1`, and the slot index
read differs from the slot frame N was written to — no backlog is
delivered. -/
theorem frame_handoff_freshness (fb : FrameBuffer) (tsN tsN1 : Nat) :
    (write_frame fb tsN fb.width fb.height).1 = true
    ∧ (write_frame (write_frame fb tsN fb.width fb.height).2 tsN1 fb.width fb.height).1 = true
    ∧ (read_latest_frame
        (write_frame (write_frame fb tsN fb.width fb.height).2 tsN1 fb.width fb.height).2).2 = tsN1
    ∧ (write_frame (write_frame fb tsN fb.width fb.height).2 tsN1 fb.width fb.height).2.write_index
        ≠ (write_frame fb tsN fb.width fb.height).2.write_index := by
  simp only [write_frame, read_latest_frame, RING_BUFFER_SIZE]
  norm_num
  omega

/-! ## DMA-BUF descriptor handoff (capture_thread_func / render_frame)

The capture thread publishes a freshly exported DMA-BUF descriptor into
the slot shared with the render thread (fields `current_*` of
`RenderThread`, held under `dmabuf_mutex`).  `capture_publish` is the
critical section at breezy_xfce4_renderer.c lines 226–241; it returns the
updated slot together with the list of descriptors it closed.
`render_consume` is the consume step at lines 714–727. -/

structure DmabufSlot where
  current_dmabuf_fd : Int
  current_fb_id : Nat
  current_format : Nat
  current_stride : Nat
  current_modifier : Nat
deriving Repr, DecidableEq

/-- The capture thread's publish: the old descriptor is closed only when
it is unconsumed AND the framebuffer id changed, then the slot is
overwritten with the new export. -/
def capture_publish (slot : DmabufSlot) (dmabuf_fd : Int)
    (fb_id format stride modifier : Nat) : DmabufSlot × List Int :=
  let closed :=
    if 0 ≤ slot.current_dmabuf_fd ∧ fb_id ≠ slot.current_fb_id
    then [slot.current_dmabuf_fd] else []
  ({ current_dmabuf_fd := dmabuf_fd
     current_fb_id := fb_id
     current_format := format
     current_stride := stride
     current_modifier := modifier }, closed)

/-- The render thread's consume: it takes the descriptor out of the slot
and marks the slot consumed (`-1`). -/
def render_consume (slot : DmabufSlot) : DmabufSlot × Int :=
  if 0 ≤ slot.current_dmabuf_fd
  then ({ slot with current_dmabuf_fd := -1 }, slot.current_dmabuf_fd)
  else (slot, slot.current_dmabuf_fd)

/-- C4 (failing input): with an unconsumed descriptor fd 5 for fb_id 42 in
the slot, publishing a fresh export fd 6 for the *same* fb_id 42 closes
nothing and overwrites the slot — fd 5 is no longer reachable from the
slot and was never closed, i.e. the handle leaks, contradicting the
release-before-overwrite rule. -/
theorem capture_publish_leaks_on_same_fb_id :
    (capture_publish ⟨5, 42, 0, 0, 0⟩ 6 42 0 0 0).2 = []
    ∧ (capture_publish ⟨5, 42, 0, 0, 0⟩ 6 42 0 0 0).1.current_dmabuf_fd = 6
    ∧ 0 ≤ (5 : Int) := by decide

/-! ## Thread lifecycle (main / cleanup_capture_thread / cleanup_render_thread)

The join bookkeeping of breezy_xfce4_renderer.c: each thread struct
carries `thread_started` (set only after a successful `pthread_create`)
and `running`; the cleanup functions join only when both are set and then
clear both.  `main_join_trace` replays every control path of `main`
through startup and shutdown, driven by the boolean outcomes of the six
fallible steps, and records each `pthread_join` performed together with
the ghost flag telling whether that thread's `pthread_create` ever
succeeded. -/

inductive ThreadId where
  | capture : ThreadId
  | render : ThreadId
deriving Repr, DecidableEq, BEq

structure ThreadCtl where
  thread_started : Bool
  running : Bool
  created_ok : Bool
deriving Repr, DecidableEq

/-- The zeroed state `memset` leaves in `init_capture_thread` /
`init_render_thread`. -/
def ThreadCtl.init : ThreadCtl := ⟨false, false, false⟩

/-- The join step of `cleanup_capture_thread` / `cleanup_render_thread`:
join only if `thread_started && running`, then clear both flags.  Returns
the ghost `created_ok` of the joined thread when a join happened. -/
def cleanup_join (t : ThreadCtl) : ThreadCtl × Option Bool :=
  if t.thread_started && t.running then
    ({ t with thread_started := false, running := false }, some t.created_ok)
  else (t, none)

/-- The `cleanup:` label of `main`: `cleanup_render_thread` then
`cleanup_capture_thread`. -/
def cleanup_pair (ren cap : ThreadCtl) : List (ThreadId × Bool) :=
  (match (cleanup_join ren).2 with
    | some b => [(ThreadId.render, b)]
    | none => []) ++
  (match (cleanup_join cap).2 with
    | some b => [(ThreadId.capture, b)]
    | none => [])

/-- Every control path of `main`, replayed over the thread-lifecycle
state.  The six booleans are the outcomes of `init_frame_buffer`,
`init_imu_reader`, `init_capture_thread`, `init_render_thread` and the
two `pthread_create` calls.  The result is the ordered list of joins
performed before exit. -/
def main_join_trace (fbOk imuOk capInitOk renInitOk capCreateOk renCreateOk : Bool) :
    List (ThreadId × Bool) :=
  if !fbOk then []
  else if !imuOk then []
  else
    let cap := ThreadCtl.init
    if !capInitOk then []
    else
      let ren := ThreadCtl.init
      if !renInitOk then
        (match (cleanup_join cap).2 with
          | some b => [(ThreadId.capture, b)]
          | none => [])
      else
        let cap := { cap with running := true }
        let ren := { ren with running := true }
        if !capCreateOk then cleanup_pair ren cap
        else
          let cap := { cap with thread_started := true, created_ok := true }
          if !renCreateOk then cleanup_pair ren cap
          else
            let ren := { ren with thread_started := true, created_ok := true }
            cleanup_pair ren cap

/-- C9: on every control path of startup and shutdown, each thread is
joined at most once and every join hits a thread whose `pthread_create`
succeeded; moreover a second run of the cleanup join step can never join
again, because the flag is cleared by the first. -/
theorem shutdown_join_safety :
    (∀ fbOk imuOk capInitOk renInitOk capCreateOk renCreateOk : Bool,
      (main_join_trace fbOk imuOk capInitOk renInitOk capCreateOk renCreateOk).countP
          (fun e => e.1 == ThreadId.capture) ≤ 1
      ∧ (main_join_trace fbOk imuOk capInitOk renInitOk capCreateOk renCreateOk).countP
          (fun e => e.1 == ThreadId.render) ≤ 1
      ∧ (main_join_trace fbOk imuOk capInitOk renInitOk capCreateOk renCreateOk).all
          (fun e => e.2) = true)
    ∧ (∀ a b c : Bool, (cleanup_join (cleanup_join ⟨a, b, c⟩).1).2 = none) := by
  constructor
  · intro fbOk imuOk capInitOk renInitOk capCreateOk renCreateOk
    cases fbOk <;> cases imuOk <;> cases capInitOk <;> cases renInitOk <;>
      cases capCreateOk <;> cases renCreateOk <;> decide
  · intro a b c
    cases a <;> cases b <;> cases c <;> decide

/-! ## Math library (breezy_math.c)

Float arithmetic is modelled over the reals. -/

open Real

/-- `BreezyFOVs` from breezy_math.h. -/
structure BreezyFOVs where
  horizontal : ℝ
  vertical : ℝ
  diagonal : ℝ

/-- `breezy_diagonal_to_cross_fovs`: spherical diagonal FOV to
horizontal/vertical spherical FOVs via the flat plane at distance 1. -/
noncomputable def breezy_diagonal_to_cross_fovs (diagonal_fov_radians aspect_ratio : ℝ) :
    BreezyFOVs :=
  { diagonal := diagonal_fov_radians
    horizontal := 2 * Real.arctan
      (2 * Real.tan (diagonal_fov_radians / 2) / Real.sqrt (1 + aspect_ratio * aspect_ratio)
        * aspect_ratio / 2)
    vertical := 2 * Real.arctan
      (2 * Real.tan (diagonal_fov_radians / 2) / Real.sqrt (1 + aspect_ratio * aspect_ratio) / 2) }

/-- `breezy_calculate_look_ahead_ms`: the data age is the truncated
difference of the two unsigned millisecond clocks; the override replaces
the constant when non-negative. -/
noncomputable def breezy_calculate_look_ahead_ms (imu_timestamp_ms current_time_ms : Nat)
    (look_ahead_constant look_ahead_override : ℝ) : ℝ :=
  (if 0 ≤ look_ahead_override then look_ahead_override else look_ahead_constant)
    + ((if imu_timestamp_ms < current_time_ms
        then current_time_ms - imu_timestamp_ms else 0 : Nat) : ℝ)

/-- C6: `breezy_calculate_look_ahead_ms` is `max(now − imu, 0)` plus the
override when the override is ≥ 0 and plus the constant otherwise; in
particular it is 510 at (1000, 1500, 10, −1) and 505 at
(1000, 1500, 10, 5). -/
theorem look_ahead_ms_spec :
    (∀ (imu now : Nat) (c o : ℝ),
      breezy_calculate_look_ahead_ms imu now c o
        = (if 0 ≤ o then o else c) + max ((now : ℝ) - (imu : ℝ)) 0)
    ∧ breezy_calculate_look_ahead_ms 1000 1500 10 (-1) = 510
    ∧ breezy_calculate_look_ahead_ms 1000 1500 10 5 = 505 := by
  refine ⟨?_, ?_, ?_⟩
  · intro imu now c o
    unfold breezy_calculate_look_ahead_ms
    congr 1
    rcases lt_or_le imu now with h | h
    · rw [if_pos h, Nat.cast_sub h.le]
      rw [max_eq_left]
      have : (imu : ℝ) ≤ (now : ℝ) := by exact_mod_cast h.le
      linarith
    · rw [if_neg (not_lt.mpr h), Nat.cast_zero]
      rw [max_eq_right]
      have : (now : ℝ) ≤ (imu : ℝ) := by exact_mod_cast h
      linarith
  · norm_num [breezy_calculate_look_ahead_ms]
  · norm_num [breezy_calculate_look_ahead_ms]

/-- Modelled from the spec: the inverse recombination of §8 — map the
horizontal and vertical spherical FOVs to flat-plane lengths
`2*tan(fov/2)`, recombine them Pythagorean-style into a flat diagonal,
and map back through `2*atan(length/2)`. -/
noncomputable def fov_recompose_diagonal (f : BreezyFOVs) : ℝ :=
  2 * Real.arctan (Real.sqrt
    ((2 * Real.tan (f.horizontal / 2)) ^ 2 + (2 * Real.tan (f.vertical / 2)) ^ 2) / 2)

/-- C7: for aspect_ratio > 0 and diagonal FOV in (0, π), recombining the
horizontal/vertical FOVs produced by `breezy_diagonal_to_cross_fovs`
recovers the diagonal within 1e-6 radians (in the real model, exactly). -/
theorem fov_roundtrip (a d : ℝ) (ha : 0 < a) (hd0 : 0 < d) (hdpi : d < Real.pi) :
    |fov_recompose_diagonal (breezy_diagonal_to_cross_fovs d a) - d| < 1e-6 := by
  have hhalf0 : 0 < d / 2 := by linarith
  have hhalfpi : d / 2 < Real.pi / 2 := by linarith
  have hTpos : 0 < Real.tan (d / 2) := Real.tan_pos_of_pos_of_lt_pi_div_two hhalf0 hhalfpi
  have hs0 : (0 : ℝ) < 1 + a * a := by nlinarith
  have hspos : 0 < Real.sqrt (1 + a * a) := Real.sqrt_pos.mpr hs0
  have hsne : Real.sqrt (1 + a * a) ≠ 0 := ne_of_gt hspos
  have hssq : Real.sqrt (1 + a * a) ^ 2 = 1 + a * a := Real.sq_sqrt hs0.le
  have hh : (breezy_diagonal_to_cross_fovs d a).horizontal
      = 2 * Real.arctan (Real.tan (d / 2) * a / Real.sqrt (1 + a * a)) := by
    unfold breezy_diagonal_to_cross_fovs
    ring_nf
  have hv : (breezy_diagonal_to_cross_fovs d a).vertical
      = 2 * Real.arctan (Real.tan (d / 2) / Real.sqrt (1 + a * a)) := by
    unfold breezy_diagonal_to_cross_fovs
    ring_nf
  unfold fov_recompose_diagonal
  rw [hh, hv, mul_div_cancel_left₀ _ (two_ne_zero' ℝ), mul_div_cancel_left₀ _ (two_ne_zero' ℝ),
    Real.tan_arctan, Real.tan_arctan]
  have hsum : (2 * (Real.tan (d / 2) * a / Real.sqrt (1 + a * a))) ^ 2
      + (2 * (Real.tan (d / 2) / Real.sqrt (1 + a * a))) ^ 2
      = (2 * Real.tan (d / 2)) ^ 2 := by
    field_simp
    nlinarith [hssq]
  rw [hsum, Real.sqrt_sq (by linarith), mul_div_cancel_left₀ _ (two_ne_zero' ℝ),
    Real.arctan_tan (by linarith) hhalfpi]
  have h2 : (2 : ℝ) * (d / 2) = d := by ring
  rw [h2, sub_self, abs_zero]
  norm_num

/-- Witness for C7 at aspect_ratio 1 and diagonal FOV π/2. -/
theorem fov_roundtrip_witness :
    (0 : ℝ) < 1 ∧ (0 : ℝ) < Real.pi / 2 ∧ Real.pi / 2 < Real.pi
    ∧ |fov_recompose_diagonal (breezy_diagonal_to_cross_fovs (Real.pi / 2) 1) - Real.pi / 2|
        < 1e-6 :=
  ⟨one_pos, by positivity, by linarith [Real.pi_pos],
    fov_roundtrip 1 (Real.pi / 2) one_pos (by positivity) (by linarith [Real.pi_pos])⟩

/-! ## Shader uniform FOV computation (set_shader_uniforms)

The FOV block of `set_shader_uniforms` in breezy_xfce4_renderer.c lines
547–552: aspect ratio from the config resolution, then the *angle* is
divided by `sqrt(aspect² + 1)` and the half-widths are the tangents of
the resulting angles. -/

/-- The `fov_half_widths` pair `{tanf(half_fov_y_rads), tanf(half_fov_z_rads)}`
computed by `set_shader_uniforms` from the config's display resolution
(width, height) and diagonal FOV in degrees. -/
noncomputable def set_shader_uniforms_fov_half_widths (width height display_fov_deg : ℝ) :
    ℝ × ℝ :=
  (Real.tan (display_fov_deg * Real.pi / 180
      / Real.sqrt ((width / height) * (width / height) + 1) / 2 * (width / height)),
   Real.tan (display_fov_deg * Real.pi / 180
      / Real.sqrt ((width / height) * (width / height) + 1) / 2))

/-- The pair `(tan(horizontal/2), tan(vertical/2))` obtained from the math
library's spherical-to-planar conversion applied to the diagonal FOV (in
radians) and the aspect ratio — the pair claim C5 says the shader
receives. -/
noncomputable def cross_fov_half_widths (display_fov_deg aspect : ℝ) : ℝ × ℝ :=
  (Real.tan ((breezy_diagonal_to_cross_fovs (display_fov_deg * Real.pi / 180) aspect).horizontal
      / 2),
   Real.tan ((breezy_diagonal_to_cross_fovs (display_fov_deg * Real.pi / 180) aspect).vertical
      / 2))

/-- C5 counterexample: at resolution 1000×1000 and diagonal FOV 120°, the
half-width pair `set_shader_uniforms` uploads differs from the pair
derived through `breezy_diagonal_to_cross_fovs`: the uploaded vertical
half-width is `tan(π/(3·√2)) < 1` while the math-library value is
`tan(π/3)/√2 = √3/√2 > 1`. -/
theorem shader_fov_half_widths_ne_cross_fovs :
    set_shader_uniforms_fov_half_widths 1000 1000 120
      ≠ cross_fov_half_widths 120 (1000 / 1000) := by
  have hs2 : Real.sqrt 2 ^ 2 = 2 := Real.sq_sqrt (by norm_num)
  have hs2pos : 0 < Real.sqrt 2 := Real.sqrt_pos.mpr (by norm_num)
  have hpi : 0 < Real.pi := Real.pi_pos
  have harg : (1000 : ℝ) / 1000 = 1 := by norm_num
  -- the uploaded vertical half-width is tan of the linearly divided angle
  have hangle : (120 : ℝ) * Real.pi / 180 / Real.sqrt ((1000 / 1000) * (1000 / 1000) + 1) / 2
      = Real.pi * 2 / 3 / Real.sqrt 2 / 2 := by
    rw [harg]
    norm_num
    ring_nf
  -- that angle lies strictly below π/4
  have h43 : (4 : ℝ) < 3 * Real.sqrt 2 := by nlinarith [hs2, hs2pos.le]
  have heq2 : Real.pi * 2 / 3 / Real.sqrt 2 / 2 = Real.pi / (3 * Real.sqrt 2) := by
    field_simp
    ring
  have hlt : Real.pi * 2 / 3 / Real.sqrt 2 / 2 < Real.pi / 4 := by
    rw [heq2, div_lt_div_iff₀ (by positivity) (by norm_num : (0:ℝ) < 4)]
    nlinarith [mul_pos hpi (by linarith : (0:ℝ) < 3 * Real.sqrt 2 - 4)]
  have hanglepos : 0 < Real.pi * 2 / 3 / Real.sqrt 2 / 2 := by positivity
  have htan1 : Real.tan (Real.pi * 2 / 3 / Real.sqrt 2 / 2) < 1 := by
    rw [← Real.tan_pi_div_four]
    apply Real.tan_lt_tan_of_lt_of_lt_pi_div_two (by linarith) (by linarith) hlt
  -- the math-library vertical half-width is tan(π/3)/√2 = √3/√2 > 1
  have hvert : (breezy_diagonal_to_cross_fovs ((120 : ℝ) * Real.pi / 180) (1000 / 1000)).vertical
      = 2 * Real.arctan (Real.tan (Real.pi / 3) / Real.sqrt 2) := by
    unfold breezy_diagonal_to_cross_fovs
    rw [harg]
    have h1 : (120 : ℝ) * Real.pi / 180 / 2 = Real.pi / 3 := by ring
    have h2 : (1 : ℝ) * 1 + 1 = 2 := by norm_num
    rw [h1]
    norm_num
    ring_nf
  have htanp3 : Real.tan (Real.pi / 3) = Real.sqrt 3 := by
    rw [Real.tan_eq_sin_div_cos, Real.sin_pi_div_three, Real.cos_pi_div_three]
    field_simp
  have hs3 : Real.sqrt 3 ^ 2 = 3 := Real.sq_sqrt (by norm_num)
  have hgt1 : 1 < Real.tan ((breezy_diagonal_to_cross_fovs ((120 : ℝ) * Real.pi / 180)
      (1000 / 1000)).vertical / 2) := by
    rw [hvert, mul_div_cancel_left₀ _ (two_ne_zero' ℝ), Real.tan_arctan, htanp3]
    rw [lt_div_iff₀ hs2pos, one_mul]
    nlinarith [hs2, hs3, hs2pos, Real.sqrt_pos.mpr (by norm_num : (0:ℝ) < 3)]
  intro heq
  have hsnd := congrArg Prod.snd heq
  simp only [set_shader_uniforms_fov_half_widths, cross_fov_half_widths] at hsnd
  rw [hangle] at hsnd
  linarith [htan1, hgt1, hsnd.ge, hsnd.le]

/-- C5 amended: the half-width pair `set_shader_uniforms` uploads is
`(tan(a·θ), tan(θ))` with `θ = fov_deg·π / (360·√(a²+1))` and
`a = width/height` — a linear division of the diagonal *angle* by
`√(aspect²+1)`, not the math library's flat-plane (tangent-space)
decomposition. -/
theorem shader_fov_half_widths_linear_angle (width height display_fov_deg : ℝ) :
    set_shader_uniforms_fov_half_widths width height display_fov_deg
      = (Real.tan ((width / height) * (display_fov_deg * Real.pi
            / (360 * Real.sqrt ((width / height) ^ 2 + 1)))),
         Real.tan (display_fov_deg * Real.pi
            / (360 * Real.sqrt ((width / height) ^ 2 + 1)))) := by
  unfold set_shader_uniforms_fov_half_widths
  have hsq : (width / height) * (width / height) + 1 = (width / height) ^ 2 + 1 := by ring
  have h1 : display_fov_deg * Real.pi / 180 / Real.sqrt ((width / height) ^ 2 + 1) / 2
        * (width / height)
      = (width / height) * (display_fov_deg * Real.pi
        / (360 * Real.sqrt ((width / height) ^ 2 + 1))) := by
    ring
  have h2 : display_fov_deg * Real.pi / 180 / Real.sqrt ((width / height) ^ 2 + 1) / 2
      = display_fov_deg * Real.pi / (360 * Real.sqrt ((width / height) ^ 2 + 1)) := by
    ring
  rw [hsq, h1, h2]

/-! ## Quaternion SLERP (breezy_slerp_quaternion)

Quaternions are stored `[x, y, z, w]` as in the C source.  The locals of
`breezy_slerp_quaternion` (the possibly negated second quaternion, the
clamped dot product, the angle) become named functions; `slerp_pre` is
everything before the final normalisation. -/

@[ext]
structure Quat where
  x : ℝ
  y : ℝ
  z : ℝ
  w : ℝ

/-- Negation of a quaternion (the shortest-path flip in the source). -/
noncomputable def qneg (q : Quat) : Quat := ⟨-q.x, -q.y, -q.z, -q.w⟩

/-- The dot product computed at breezy_math.c line 121. -/
noncomputable def qdot (p q : Quat) : ℝ := p.x * q.x + p.y * q.y + p.z * q.z + p.w * q.w

/-- Squared length (the argument of the final `sqrtf`). -/
noncomputable def qsumsq (q : Quat) : ℝ := qdot q q

/-- Euclidean norm of a quaternion. -/
noncomputable def qnorm (q : Quat) : ℝ := Real.sqrt (qsumsq q)

/-- The componentwise combination `w1*q1 + w2*q2` used by both branches. -/
noncomputable def qscale_add (a : ℝ) (p : Quat) (b : ℝ) (q : Quat) : Quat :=
  ⟨a * p.x + b * q.x, a * p.y + b * q.y, a * p.z + b * q.z, a * p.w + b * q.w⟩

/-- The clamp of `t` to `[0, 1]` at the top of the function. -/
noncomputable def clampT (t : ℝ) : ℝ := if t < 0 then 0 else if t > 1 then 1 else t

/-- The clamp of the dot product to `[-1, 1]` before `acosf`. -/
noncomputable def clampDot (d : ℝ) : ℝ := if d > 1 then 1 else if d < -1 then -1 else d

/-- `actual_q2`: `q2` negated when the dot product is negative. -/
noncomputable def slerp_aq2 (q1 q2 : Quat) : Quat :=
  if qdot q1 q2 < 0 then qneg q2 else q2

/-- The dot product after the sign flip. -/
noncomputable def slerp_absdot (q1 q2 : Quat) : ℝ :=
  if qdot q1 q2 < 0 then -qdot q1 q2 else qdot q1 q2

/-- `theta = acosf(dot)` after clamping. -/
noncomputable def slerp_theta (q1 q2 : Quat) : ℝ :=
  Real.arccos (clampDot (slerp_absdot q1 q2))

/-- The un-normalised SLERP result: linear interpolation when
`sin(theta) < 1e-6`, the `sin((1-t)θ)/sinθ`, `sin(tθ)/sinθ` weights
otherwise. -/
noncomputable def slerp_pre (q1 q2 : Quat) (t : ℝ) : Quat :=
  if Real.sin (slerp_theta q1 q2) < 1e-6 then
    qscale_add (1 - t) q1 t (slerp_aq2 q1 q2)
  else
    qscale_add (Real.sin ((1 - t) * slerp_theta q1 q2) / Real.sin (slerp_theta q1 q2)) q1
      (Real.sin (t * slerp_theta q1 q2) / Real.sin (slerp_theta q1 q2)) (slerp_aq2 q1 q2)

/-- The final normalisation: divide by the length when it is positive. -/
noncomputable def qnormalize (q : Quat) : Quat :=
  if Real.sqrt (qsumsq q) > 0 then
    ⟨q.x / Real.sqrt (qsumsq q), q.y / Real.sqrt (qsumsq q),
     q.z / Real.sqrt (qsumsq q), q.w / Real.sqrt (qsumsq q)⟩
  else q

/-- `breezy_slerp_quaternion` from breezy_math.c lines 115–174. -/
noncomputable def breezy_slerp_quaternion (q1 q2 : Quat) (t : ℝ) : Quat :=
  qnormalize (slerp_pre q1 q2 (clampT t))

theorem clampT_zero : clampT 0 = 0 := by norm_num [clampT]

theorem clampT_one : clampT 1 = 1 := by norm_num [clampT]

theorem clampT_mem (t : ℝ) : 0 ≤ clampT t ∧ clampT t ≤ 1 := by
  unfold clampT
  split_ifs <;> constructor <;> linarith

theorem qsumsq_qneg (q : Quat) : qsumsq (qneg q) = qsumsq q := by
  simp only [qsumsq, qdot, qneg]
  ring

theorem qsumsq_slerp_aq2 (q1 q2 : Quat) : qsumsq (slerp_aq2 q1 q2) = qsumsq q2 := by
  unfold slerp_aq2
  split_ifs
  · exact qsumsq_qneg q2
  · rfl

theorem qdot_slerp_aq2 (q1 q2 : Quat) : qdot q1 (slerp_aq2 q1 q2) = slerp_absdot q1 q2 := by
  unfold slerp_aq2 slerp_absdot
  split_ifs
  · simp only [qdot, qneg]
    ring
  · rfl

theorem slerp_absdot_nonneg (q1 q2 : Quat) : 0 ≤ slerp_absdot q1 q2 := by
  unfold slerp_absdot
  split_ifs with h
  · linarith
  · linarith [not_lt.mp h]

theorem qsumsq_qscale_add (a : ℝ) (p : Quat) (b : ℝ) (q : Quat) :
    qsumsq (qscale_add a p b q)
      = a ^ 2 * qsumsq p + 2 * a * b * qdot p q + b ^ 2 * qsumsq q := by
  simp only [qsumsq, qdot, qscale_add]
  ring

theorem qnormalize_of_sumsq_one (q : Quat) (h : qsumsq q = 1) : qnormalize q = q := by
  unfold qnormalize
  rw [h, Real.sqrt_one]
  rw [if_pos one_pos]
  ext <;> simp

theorem qnorm_qnormalize (q : Quat) (h : 0 < qsumsq q) : qnorm (qnormalize q) = 1 := by
  have hlen : 0 < Real.sqrt (qsumsq q) := Real.sqrt_pos.mpr h
  have hsq : Real.sqrt (qsumsq q) ^ 2 = qsumsq q := Real.sq_sqrt h.le
  unfold qnormalize
  rw [if_pos hlen]
  unfold qnorm
  have hval : qsumsq
      ⟨q.x / Real.sqrt (qsumsq q), q.y / Real.sqrt (qsumsq q),
       q.z / Real.sqrt (qsumsq q), q.w / Real.sqrt (qsumsq q)⟩
      = qsumsq q / Real.sqrt (qsumsq q) ^ 2 := by
    simp only [qsumsq, qdot]
    ring
  rw [hval, hsq, div_self (ne_of_gt h), Real.sqrt_one]

theorem slerp_cos_theta (q1 q2 : Quat)
    (h : ¬ Real.sin (slerp_theta q1 q2) < 1e-6) :
    Real.cos (slerp_theta q1 q2) = slerp_absdot q1 q2 := by
  have hD0 : 0 ≤ slerp_absdot q1 q2 := slerp_absdot_nonneg q1 q2
  by_cases hD : slerp_absdot q1 q2 > 1
  · exfalso
    apply h
    unfold slerp_theta clampDot
    rw [if_pos hD, Real.arccos_one, Real.sin_zero]
    norm_num
  · have hD1 : slerp_absdot q1 q2 ≤ 1 := not_lt.mp hD
    unfold slerp_theta clampDot
    rw [if_neg hD, if_neg (by linarith : ¬ slerp_absdot q1 q2 < -1)]
    exact Real.cos_arccos (by linarith) hD1

theorem sin_sq_identity (A B : ℝ) :
    Real.sin A ^ 2 + Real.sin B ^ 2 + 2 * Real.sin A * Real.sin B * Real.cos (A + B)
      = Real.sin (A + B) ^ 2 := by
  rw [Real.sin_add, Real.cos_add]
  nlinarith [Real.sin_sq_add_cos_sq A, Real.sin_sq_add_cos_sq B]

theorem qsumsq_slerp_pre_pos (q1 q2 : Quat) (t : ℝ)
    (h1 : qsumsq q1 = 1) (h2 : qsumsq q2 = 1) (ht0 : 0 ≤ t) (ht1 : t ≤ 1) :
    0 < qsumsq (slerp_pre q1 q2 t) := by
  have hD0 : 0 ≤ slerp_absdot q1 q2 := slerp_absdot_nonneg q1 q2
  unfold slerp_pre
  split_ifs with hsin
  · rw [qsumsq_qscale_add, h1, qsumsq_slerp_aq2, h2, qdot_slerp_aq2]
    nlinarith [sq_nonneg (1 - 2 * t),
      mul_nonneg (mul_nonneg (by linarith : (0:ℝ) ≤ 1 - t) ht0) hD0]
  · have hcos : Real.cos (slerp_theta q1 q2) = slerp_absdot q1 q2 := slerp_cos_theta q1 q2 hsin
    have hsinpos : 0 < Real.sin (slerp_theta q1 q2) := by
      have := not_lt.mp hsin
      linarith
    have hsne : Real.sin (slerp_theta q1 q2) ≠ 0 := ne_of_gt hsinpos
    rw [qsumsq_qscale_add, h1, qsumsq_slerp_aq2, h2, qdot_slerp_aq2, ← hcos]
    have hident := sin_sq_identity ((1 - t) * slerp_theta q1 q2) (t * slerp_theta q1 q2)
    have hAB : (1 - t) * slerp_theta q1 q2 + t * slerp_theta q1 q2 = slerp_theta q1 q2 := by
      ring
    rw [hAB] at hident
    have hval : (Real.sin ((1 - t) * slerp_theta q1 q2) / Real.sin (slerp_theta q1 q2)) ^ 2 * 1
        + 2 * (Real.sin ((1 - t) * slerp_theta q1 q2) / Real.sin (slerp_theta q1 q2))
          * (Real.sin (t * slerp_theta q1 q2) / Real.sin (slerp_theta q1 q2))
          * Real.cos (slerp_theta q1 q2)
        + (Real.sin (t * slerp_theta q1 q2) / Real.sin (slerp_theta q1 q2)) ^ 2 * 1
        = 1 := by
      field_simp
      linear_combination (Real.sin (slerp_theta q1 q2)) ^ 4 * hident
    rw [hval]
    norm_num

theorem slerp_pre_zero (q1 q2 : Quat) : slerp_pre q1 q2 0 = q1 := by
  unfold slerp_pre
  split_ifs with hsin
  · ext <;> simp only [qscale_add] <;> ring
  · have hsinpos : 0 < Real.sin (slerp_theta q1 q2) := by
      have := not_lt.mp hsin
      linarith
    have e1 : (1 - (0:ℝ)) * slerp_theta q1 q2 = slerp_theta q1 q2 := by ring
    have e2 : (0:ℝ) * slerp_theta q1 q2 = 0 := by ring
    rw [e1, e2, Real.sin_zero]
    ext <;> simp only [qscale_add] <;> field_simp

theorem slerp_pre_one (q1 q2 : Quat) : slerp_pre q1 q2 1 = slerp_aq2 q1 q2 := by
  unfold slerp_pre
  split_ifs with hsin
  · ext <;> simp only [qscale_add] <;> ring
  · have hsinpos : 0 < Real.sin (slerp_theta q1 q2) := by
      have := not_lt.mp hsin
      linarith
    have e1 : (1 - (1:ℝ)) * slerp_theta q1 q2 = 0 := by ring
    have e2 : (1:ℝ) * slerp_theta q1 q2 = slerp_theta q1 q2 := by ring
    rw [e1, e2, Real.sin_zero]
    ext <;> simp only [qscale_add] <;> field_simp

theorem slerp_pre_self (q : Quat) (h : qsumsq q = 1) (t : ℝ) : slerp_pre q q t = q := by
  have hdot : qdot q q = 1 := h
  have habs : slerp_absdot q q = 1 := by
    unfold slerp_absdot
    rw [hdot, if_neg (by norm_num)]
  have htheta : slerp_theta q q = 0 := by
    unfold slerp_theta clampDot
    rw [habs, if_neg (by norm_num), if_neg (by norm_num), Real.arccos_one]
  have haq2 : slerp_aq2 q q = q := by
    unfold slerp_aq2
    rw [hdot, if_neg (by norm_num)]
  unfold slerp_pre
  rw [htheta, haq2, Real.sin_zero, if_pos (by norm_num)]
  ext <;> simp only [qscale_add] <;> ring

/-- C8: for unit quaternions (`qsumsq = 1`), `breezy_slerp_quaternion`
returns `q1` at `t = 0`, returns `q2` up to sign (the same rotation) at
`t = 1`, is the identity on `slerp(q, q, t)` for every `t`, and always
returns a quaternion of norm 1 within 1e-5 (exactly 1 in the real
model). -/
theorem slerp_quaternion_spec (q1 q2 : Quat) (h1 : qsumsq q1 = 1) (h2 : qsumsq q2 = 1) :
    breezy_slerp_quaternion q1 q2 0 = q1
    ∧ (breezy_slerp_quaternion q1 q2 1 = q2 ∨ breezy_slerp_quaternion q1 q2 1 = qneg q2)
    ∧ (∀ t : ℝ, breezy_slerp_quaternion q1 q1 t = q1)
    ∧ (∀ t : ℝ, |qnorm (breezy_slerp_quaternion q1 q2 t) - 1| ≤ 1e-5) := by
  refine ⟨?_, ?_, ?_, ?_⟩
  · unfold breezy_slerp_quaternion
    rw [clampT_zero, slerp_pre_zero]
    exact qnormalize_of_sumsq_one q1 h1
  · unfold breezy_slerp_quaternion
    rw [clampT_one, slerp_pre_one]
    unfold slerp_aq2
    split_ifs
    · right
      exact qnormalize_of_sumsq_one (qneg q2) (by rw [qsumsq_qneg, h2])
    · left
      exact qnormalize_of_sumsq_one q2 h2
  · intro t
    unfold breezy_slerp_quaternion
    rw [slerp_pre_self q1 h1 (clampT t)]
    exact qnormalize_of_sumsq_one q1 h1
  · intro t
    have hpos := qsumsq_slerp_pre_pos q1 q2 (clampT t) h1 h2 (clampT_mem t).1 (clampT_mem t).2
    unfold breezy_slerp_quaternion
    rw [qnorm_qnormalize _ hpos, sub_self, abs_zero]
    norm_num

/-- Witness for C8 at two orthogonal unit quaternions (identity rotation
and a 180° x-rotation), exercising the genuine SLERP branch at t = 1/2. -/
theorem slerp_quaternion_spec_witness :
    breezy_slerp_quaternion ⟨0, 0, 0, 1⟩ ⟨1, 0, 0, 0⟩ 0 = ⟨0, 0, 0, 1⟩
    ∧ |qnorm (breezy_slerp_quaternion ⟨0, 0, 0, 1⟩ ⟨1, 0, 0, 0⟩ (1 / 2)) - 1| ≤ 1e-5 := by
  have h := slerp_quaternion_spec ⟨0, 0, 0, 1⟩ ⟨1, 0, 0, 0⟩
    (by norm_num [qsumsq, qdot]) (by norm_num [qsumsq, qdot])
  exact ⟨h.1, h.2.2.2 (1 / 2)⟩
